import Mathlib

/-
Verification development for the Maxwell transient-solver control program
(src/main.py).  The program has two components:

  - `load_solution_file` (main.py lines 125-158): parses the solver's
    `solution.ctl` key/value text file into a dict whose values are either
    scalar strings or nested dicts of strings; if the file does not exist
    it returns the bootstrap record mapping "time" to the integer -1.

  - `write_user_file` (main.py lines 90-122): converts the record's "time"
    entry to a number t, and writes `user.ctl` containing a begin_data /
    time / per-winding excitation / end_data block, where the excitation of
    the winding at position i among N windings is
    imax * sin(2*pi*freq*t - 2*pi/N*i).

Modelling conventions:
  - Python dicts become insertion-ordered association lists (`alookup`
    finds the first binding, `upsert` overwrites in place or appends).
  - Numeric strings are converted with an executable model `pyFloatQ` of
    the decimal-literal fragment of Python's float() constructor,
    returning exact rationals; IEEE-754 rounding and the special forms
    inf/nan/underscore-separators are not modelled.
  - Real-valued computation (sqrt, sin) is modelled over the real numbers.
  - Python's str() rendering of floats is an uninterpreted parameter
    `render : Real -> String`; theorems that depend on concrete rendered
    text take the relevant facts about `render` as hypotheses.
  - File-system effects are explicit: the reader takes a flag for whether
    the solution file exists together with its content, and the writer
    returns the content it writes (or `none` when the Python code raises
    before reaching its single `open`/`write`).
-/

/-! ## Python string primitives -/

/-- Whitespace characters recognised by Python's `str.split()` /
`str.strip()` (ASCII fragment). -/
def isWs (c : Char) : Bool :=
  c = ' ' || c = '\t' || c = '\n' || c = '\r' || c = '\x0b' || c = '\x0c'

/-- Accumulator version of Python's `str.split()` (split on whitespace
runs, dropping empty fields): `cur` is the token currently being read. -/
def wordsAux : List Char → List Char → List String
  | [], cur => if cur.isEmpty then [] else [String.mk cur]
  | c :: cs, cur =>
    if isWs c then
      if cur.isEmpty then wordsAux cs [] else String.mk cur :: wordsAux cs []
    else
      wordsAux cs (cur ++ [c])

/-- Python's `str.split()` with no argument. -/
def words (cs : List Char) : List String := wordsAux cs []

/-- Python's `str.strip()` with no argument: drop leading and trailing
whitespace. -/
def pyStrip (cs : List Char) : List Char :=
  (((cs.dropWhile isWs).reverse.dropWhile isWs)).reverse

/-- `line.strip().split()` from main.py line 142. -/
def tokenize (line : String) : List String :=
  words (pyStrip line.data)

/-- Accumulator version of Python's `file.readlines()`: split the content
after every newline character, keeping the newline, with a final
unterminated segment kept only when non-empty. -/
def linesAux : List Char → List Char → List String
  | [], cur => if cur.isEmpty then [] else [String.mk cur]
  | c :: cs, cur =>
    if c = '\n' then String.mk (cur ++ [c]) :: linesAux cs []
    else linesAux cs (cur ++ [c])

/-- Python's `file.readlines()` on a content string. -/
def pyReadlines (s : String) : List String := linesAux s.data []

/-- Python's `''.join(output)` (main.py line 120). -/
def sjoin (l : List String) : String := l.foldr (fun a b => a ++ b) ""

/-! ## The decimal fragment of Python's float() constructor -/

/-- Read a maximal run of ASCII digits, returning the accumulated value,
the number of digits read, and the rest of the input. -/
def readDigits : List Char → ℕ → ℕ → ℕ × ℕ × List Char
  | [], acc, k => (acc, k, [])
  | c :: cs, acc, k =>
    if c.isDigit then readDigits cs (10 * acc + (c.toNat - 48)) (k + 1)
    else (acc, k, c :: cs)

/-- Parse the exponent digits of a float literal and apply them to the
mantissa; fails when there are no digits or trailing characters remain. -/
def expDigits (cs : List Char) (mant : ℚ) (sgn : ℤ) : Option ℚ :=
  let r := readDigits cs 0 0
  if r.2.1 = 0 ∨ r.2.2 ≠ [] then none
  else some (mant * (10 : ℚ) ^ (sgn * (r.1 : ℤ)))

/-- Parse an optional exponent part `e`/`E` with optional sign after the
mantissa `mant`; anything else trailing is an error. -/
def parseFloatExp : List Char → ℚ → Option ℚ
  | [], mant => some mant
  | c :: r, mant =>
    if c = 'e' ∨ c = 'E' then
      match r with
      | '+' :: r2 => expDigits r2 mant 1
      | '-' :: r2 => expDigits r2 mant (-1)
      | r2 => expDigits r2 mant 1
    else none

/-- Parse an unsigned float literal: `digits [. digits] [exp]` or
`. digits [exp]`, with at least one digit overall. -/
def pyFloatMag (cs : List Char) : Option ℚ :=
  let r1 := readDigits cs 0 0
  match r1.2.2 with
  | '.' :: r2 =>
    let r3 := readDigits r2 0 0
    if r1.2.1 + r3.2.1 = 0 then none
    else parseFloatExp r3.2.2 ((r1.1 : ℚ) + (r3.1 : ℚ) / (10 : ℚ) ^ r3.2.1)
  | _ =>
    if r1.2.1 = 0 then none else parseFloatExp r1.2.2 (r1.1 : ℚ)

/-- The numeric-literal fragment of Python's `float(str)`: optional
surrounding whitespace, optional sign, decimal mantissa with optional
fraction and exponent.  (The special forms `inf`/`nan` and PEP-515
underscores are outside the model.)  Returns the exact rational value. -/
def pyFloatQ (s : String) : Option ℚ :=
  match pyStrip s.data with
  | '+' :: rest => pyFloatMag rest
  | '-' :: rest => (pyFloatMag rest).map (fun q => -q)
  | rest => pyFloatMag rest

/-! ## The solution record -/

/-- A value stored in the parsed solution record: Python's runtime lets the
reader store either a plain string, the integer `-1` (bootstrap case,
main.py line 157), or a nested dict of strings. -/
inductive Value where
  | scalar (s : String)
  | intVal (n : ℤ)
  | nested (m : List (String × String))
  deriving DecidableEq

/-- The parsed solution record: a Python dict modelled as an
insertion-ordered association list. -/
def Record := List (String × Value)

instance : DecidableEq Record := fun a b => List.hasDecEq a b

/-- First binding of key `k`, i.e. Python dict lookup. -/
def alookup {β : Type} : List (String × β) → String → Option β
  | [], _ => none
  | p :: rest, k => if p.1 = k then some p.2 else alookup rest k

/-- Python dict assignment `d[k] = v`: overwrite in place when the key is
present (keeping its position), otherwise append the new binding. -/
def upsert {β : Type} : List (String × β) → String → β → List (String × β)
  | [], k, v => [(k, v)]
  | p :: rest, k, v => if p.1 = k then (k, v) :: rest else p :: upsert rest k v

/-! ## The reader (main.py lines 125-158) -/

/-- One iteration of the reader loop (main.py lines 141-152) on an already
tokenized line.  `none` models an uncaught Python exception:
  - an empty token list makes `split_line[0]` raise IndexError;
  - a line with three or more tokens whose key is already bound to a
    non-dict value makes `sol[key][split_line[1]] = split_line[2]` raise
    TypeError (item assignment on a str/int). -/
def processLine (sol : Record) : List String → Option Record
  | [] => none
  | [_] => some sol
  | [key, value] => some (upsert sol key (Value.scalar value))
  | key :: subkey :: value :: _ =>
    match alookup sol key with
    | none => some (upsert sol key (Value.nested [(subkey, value)]))
    | some (Value.nested m) =>
      some (upsert sol key (Value.nested (upsert m subkey value)))
    | some _ => none

/-- Tokenize a raw line and process it (main.py lines 142-152). -/
def readLine (sol : Record) (line : String) : Option Record :=
  processLine sol (tokenize line)

/-- The reader loop starting from record `sol`. -/
def loadFrom (sol : Record) (lines : List String) : Option Record :=
  List.foldlM readLine sol lines

/-- The reader loop starting from the empty dict (main.py line 134). -/
def loadLines (lines : List String) : Option Record := loadFrom [] lines

/-- `load_solution_file` (main.py lines 125-158).  The filesystem is made
explicit: `fileExists` says whether the file at the solution path exists,
`content` is its content when it does.  When the file is absent the
bootstrap record `{time: -1}` (integer -1, line 157) is returned. -/
def load_solution_file (fileExists : Bool) (content : String) : Option Record :=
  if fileExists then loadLines (pyReadlines content)
  else some [("time", Value.intVal (-1))]

/-! ## Machine constants (main.py lines 29-37) -/

def current_density : ℚ := 10

def slot_size : ℚ := 100

def fill_factor : ℚ := 0.5

def turns : ℚ := 29

def irms : ℚ := current_density * slot_size * fill_factor / turns

noncomputable def imax : ℝ := (irms : ℝ) * Real.sqrt 2

def pole : ℚ := 2

def speed : ℚ := 120000

def freq : ℚ := pole / 2 * speed / 60

/-! ## The writer (main.py lines 61-122) -/

/-- `float(sol['time'])` (main.py line 101) on a stored record value:
succeeds on the bootstrap integer and on numeric-literal strings; a nested
dict raises TypeError. -/
def toNum : Value → Option ℚ
  | Value.scalar s => pyFloatQ s
  | Value.intVal n => some (n : ℚ)
  | Value.nested _ => none

/-- The `Winding` class (main.py lines 66-87). -/
structure Winding where
  src : ℝ
  R : ℝ
  L : ℝ
  name : String

/-- `str(Winding(...))`, i.e. `excitation_template.format(...)` (main.py
lines 61-63 and 83-87); numeric fields are rendered by `render`, the model
of Python's str() on numbers. -/
def Winding.str (render : ℝ → String) (w : Winding) : String :=
  "windingSrc " ++ w.name ++ " " ++ render w.src ++ "\n"
    ++ ("windingR " ++ w.name ++ " " ++ render w.R ++ "\n")
    ++ ("windingL " ++ w.name ++ " " ++ render w.L ++ "\n")

/-- The `output` list assembled by `write_user_file` (main.py lines
98-116), before the file is opened.  `none` models an uncaught exception:
KeyError when `time` is missing, ValueError/TypeError when `float` fails
on its value, KeyError when `windingEmf` is missing with t != -1, and
AttributeError when `sol['windingEmf'].keys()` is taken on a non-dict. -/
noncomputable def write_output (render : ℝ → String) (sol : Record) :
    Option (List String) :=
  match alookup sol "time" with
  | none => none
  | some tv =>
    match toNum tv with
    | none => none
    | some t =>
      let head : List String := ["begin_data\n", "time " ++ render (t : ℝ) ++ "\n"]
      if t ≠ -1 then
        match alookup sol "windingEmf" with
        | some (Value.nested m) =>
          let winding_names := m.map Prod.fst
          let num_phases := winding_names.length
          some (head
            ++ winding_names.enum.map (fun p =>
                 Winding.str render
                   (Winding.mk
                     (imax * Real.sin (2 * Real.pi * (freq : ℝ) * (t : ℝ)
                        - 2 * Real.pi / (num_phases : ℝ) * (p.1 : ℝ)))
                     0.1 0 p.2))
            ++ ["end_data\n"])
        | _ => none
      else
        some (head ++ ["end_data\n"])

/-- `write_user_file` (main.py lines 90-122): the content written to the
control file with the default truncating mode `'w'`, or `none` when the
run aborts with an exception before reaching the write. -/
noncomputable def write_user_file (render : ℝ → String) (sol : Record) :
    Option String :=
  (write_output render sol).map sjoin

/-- The effect of one `write_user_file` call on the control file: the code
opens the output file (main.py line 119) only after the whole `output`
list has been assembled, so a failing run leaves the previous content
`oldContent` untouched, and a successful run replaces it with the joined
output. -/
noncomputable def run_write (render : ℝ → String) (sol : Record)
    (oldContent : String) : String :=
  match write_output render sol with
  | none => oldContent
  | some out => sjoin out

/-- A string that survives whitespace tokenization as a single token:
non-empty and free of whitespace characters (winding names read from the
solution file and Python's renderings of finite floats are such). -/
def tokOk (s : String) : Prop :=
  s.data ≠ [] ∧ ∀ c ∈ s.data, isWs c = false

instance (s : String) : Decidable (tokOk s) := by
  unfold tokOk
  infer_instance

/-- A newline-terminated line with no interior newline, the shape of every
line the writer emits. -/
def nlLine (s : String) : Prop :=
  ∃ body : List Char, s.data = body ++ ['\n'] ∧ '\n' ∉ body

/-- The three lines of one winding block, as the solver's reader sees them
after `readlines`: the decomposition of `Winding.str` at the newlines, for
the winding named `p.1` with source value `p.2`. -/
def chunkLines (render : ℝ → String) (p : String × ℝ) : List String :=
  ["windingSrc" ++ " " ++ p.1 ++ " " ++ render p.2 ++ "\n",
   "windingR" ++ " " ++ p.1 ++ " " ++ render (0.1 : ℝ) ++ "\n",
   "windingL" ++ " " ++ p.1 ++ " " ++ render (0 : ℝ) ++ "\n"]

/-! ## Association list lemmas -/

theorem alookup_upsert_self {β : Type} (l : List (String × β)) (k : String)
    (v : β) : alookup (upsert l k v) k = some v := by
  induction l with
  | nil => simp [upsert, alookup]
  | cons p rest ih =>
    by_cases h : p.1 = k
    · simp [upsert, h, alookup]
    · simp [upsert, h, alookup, ih]

theorem alookup_upsert_other {β : Type} (l : List (String × β))
    (k k' : String) (v : β) (h : k' ≠ k) :
    alookup (upsert l k v) k' = alookup l k' := by
  have hk : k ≠ k' := fun hh => h hh.symm
  induction l with
  | nil => simp [upsert, alookup, hk]
  | cons p rest ih =>
    by_cases hp : p.1 = k
    · have hp' : p.1 ≠ k' := hp ▸ hk
      simp [upsert, hp, alookup, hk, hp']
    · simp [upsert, hp, alookup, ih]

theorem upsert_of_alookup_none {β : Type} (l : List (String × β))
    (k : String) (v : β) (h : alookup l k = none) :
    upsert l k v = l ++ [(k, v)] := by
  induction l with
  | nil => simp [upsert]
  | cons p rest ih =>
    by_cases hp : p.1 = k
    · simp [alookup, hp] at h
    · simp [alookup, hp] at h
      simp [upsert, hp, ih h]

/-! ## Reader loop lemmas -/

@[simp] theorem loadFrom_nil (sol : Record) : loadFrom sol [] = some sol := rfl

@[simp] theorem loadFrom_cons (sol : Record) (l : String) (ls : List String) :
    loadFrom sol (l :: ls) = (readLine sol l).bind (fun s => loadFrom s ls) := by
  cases h : readLine sol l <;>
    simp [loadFrom, List.foldlM_cons, h, Option.bind]

theorem loadFrom_append (sol : Record) (xs ys : List String) :
    loadFrom sol (xs ++ ys) = (loadFrom sol xs).bind (fun s => loadFrom s ys) := by
  induction xs generalizing sol with
  | nil => simp
  | cons x xs ih =>
    simp only [List.cons_append, loadFrom_cons]
    cases h : readLine sol x with
    | none => simp
    | some s => simp [ih]

/-! ## Claims about the reader -/

/-- C4, counterexample: for an absent solution file the reader returns the
record mapping "time" to the INTEGER -1 (main.py line 157), not to the
scalar string "-1" that the claim asserts. -/
theorem claim_C4_cex :
    load_solution_file false "" = some [("time", Value.intVal (-1))] ∧
    Value.intVal (-1) ≠ Value.scalar "-1" ∧
    load_solution_file false "" ≠ some [("time", Value.scalar "-1")] := by
  refine ⟨by decide, by decide, by decide⟩

/-- C4, amended: for every path that does not exist on disk the reader does
not fail and returns a record containing exactly the one key "time",
bound to the Python integer -1 (which still converts to the number -1 in
the writer). -/
theorem claim_C4 (content : String) :
    load_solution_file false content = some [("time", Value.intVal (-1))] ∧
    toNum (Value.intVal (-1)) = some (-1) := by
  constructor
  · rfl
  · simp [toNum]

/-- C5, counterexample: a solution file whose second line is blank makes
the reader fail (`split_line[0]` raises IndexError on the empty token
list of main.py line 143), so blank lines are not skipped silently. -/
theorem claim_C5_cex :
    load_solution_file true "time 1\n\n" = none ∧
    tokenize "\n" = [] := by
  refine ⟨by decide, by decide⟩

/-- C5, amended: a line with exactly one token is skipped silently and
leaves the record unchanged, but a blank or whitespace-only line (empty
token list) raises an IndexError and aborts the reader. -/
theorem claim_C5 (sol : Record) (line : String) :
    ((tokenize line).length = 1 → readLine sol line = some sol) ∧
    (tokenize line = [] → readLine sol line = none) := by
  constructor
  · intro h
    cases htok : tokenize line with
    | nil => rw [htok] at h; simp at h
    | cons a t =>
      cases t with
      | nil => simp [readLine, htok, processLine]
      | cons b t2 => rw [htok] at h; simp at h
  · intro h
    simp [readLine, h, processLine]

/-- C5, witness for the amended claim at concrete inputs. -/
theorem claim_C5_witness :
    ((tokenize "x\n").length = 1 ∧
      readLine [("k", Value.scalar "v")] "x\n" = some [("k", Value.scalar "v")]) ∧
    (tokenize "  \n" = [] ∧ readLine [] "  \n" = none) :=
  ⟨⟨by decide, (claim_C5 [("k", Value.scalar "v")] "x\n").1 (by decide)⟩,
   ⟨by decide, (claim_C5 [] "  \n").2 (by decide)⟩⟩

/-- C6: a line with three or more tokens `key subkey value ...` stores
`value` under `subkey` inside the nested mapping at `key` (creating it
when `key` is absent, merging and overwriting when `key` is already a
nested mapping), leaves every other key of the record and every other
sub-key of the mapping unchanged, and ignores all tokens after the third. -/
theorem claim_C6 (sol : Record) (key subkey value : String)
    (extra : List String) :
    processLine sol (key :: subkey :: value :: extra) =
      processLine sol [key, subkey, value] ∧
    ((alookup sol key = none ∨ (∃ m, alookup sol key = some (Value.nested m))) →
      ∃ sol', processLine sol (key :: subkey :: value :: extra) = some sol' ∧
        (∃ m', alookup sol' key = some (Value.nested m') ∧
          alookup m' subkey = some value ∧
          ∀ k, k ≠ subkey → alookup m' k =
            (match alookup sol key with
             | some (Value.nested m) => alookup m k
             | _ => none)) ∧
        (∀ k', k' ≠ key → alookup sol' k' = alookup sol k')) := by
  constructor
  · cases extra <;> rfl
  · rintro (h | ⟨m, h⟩)
    · refine ⟨upsert sol key (Value.nested [(subkey, value)]), ?_, ?_, ?_⟩
      · simp [processLine, h]
      · refine ⟨[(subkey, value)], alookup_upsert_self _ _ _, by simp [alookup], ?_⟩
        intro k hk
        have hk' : subkey ≠ k := fun hh => hk hh.symm
        simp [alookup, hk', h]
      · intro k' hk'
        exact alookup_upsert_other _ _ _ _ hk'
    · refine ⟨upsert sol key (Value.nested (upsert m subkey value)), ?_, ?_, ?_⟩
      · simp [processLine, h]
      · refine ⟨upsert m subkey value, alookup_upsert_self _ _ _,
          alookup_upsert_self _ _ _, ?_⟩
        intro k hk
        rw [alookup_upsert_other _ _ _ _ hk, h]
      · intro k' hk'
        exact alookup_upsert_other _ _ _ _ hk'

/-- C6, witness: both the key-absent and the key-already-nested cases at
concrete inputs. -/
theorem claim_C6_witness :
    (processLine [] ["a", "b", "c", "d"] = processLine [] ["a", "b", "c"] ∧
      ∃ sol', processLine [] ["a", "b", "c", "d"] = some sol' ∧
        (∃ m', alookup sol' "a" = some (Value.nested m') ∧
          alookup m' "b" = some "c" ∧
          ∀ k, k ≠ "b" → alookup m' k =
            (match alookup ([] : Record) "a" with
             | some (Value.nested m) => alookup m k
             | _ => none)) ∧
        (∀ k', k' ≠ "a" → alookup sol' k' = alookup ([] : Record) k')) ∧
    (∃ sol', processLine [("a", Value.nested [("x", "y")])] ["a", "b", "c"] =
        some sol' ∧
      (∃ m', alookup sol' "a" = some (Value.nested m') ∧
        alookup m' "b" = some "c" ∧
        ∀ k, k ≠ "b" → alookup m' k =
          (match alookup [("a", Value.nested [("x", "y")])] "a" with
           | some (Value.nested m) => alookup m k
           | _ => none)) ∧
      (∀ k', k' ≠ "a" →
        alookup sol' k' = alookup [("a", Value.nested [("x", "y")])] k')) :=
  ⟨⟨(claim_C6 [] "a" "b" "c" ["d"]).1,
    (claim_C6 [] "a" "b" "c" ["d"]).2 (Or.inl (by decide))⟩,
   (claim_C6 [("a", Value.nested [("x", "y")])] "a" "b" "c" []).2
     (Or.inr ⟨[("x", "y")], by decide⟩)⟩

/-- C9: once a key is bound to a scalar (from a 2-token line), a later
line with three or more tokens and the same key raises a TypeError (item
assignment into a str), aborting the whole read; in the opposite order a
2-token line simply overwrites a nested mapping with a scalar. -/
theorem claim_C9 (sol : Record) (key s subkey value : String)
    (extra : List String) (m : List (String × String)) (value2 : String) :
    (alookup sol key = some (Value.scalar s) →
      processLine sol (key :: subkey :: value :: extra) = none) ∧
    (∀ (pre post : List String) (line : String),
      loadLines pre = some sol →
      alookup sol key = some (Value.scalar s) →
      tokenize line = key :: subkey :: value :: extra →
      loadLines (pre ++ line :: post) = none) ∧
    (alookup sol key = some (Value.nested m) →
      processLine sol [key, value2] = some (upsert sol key (Value.scalar value2)) ∧
      alookup (upsert sol key (Value.scalar value2)) key =
        some (Value.scalar value2)) := by
  refine ⟨?_, ?_, ?_⟩
  · intro h
    simp [processLine, h]
  · intro pre post line hpre hsol htok
    have hbad : readLine sol line = none := by
      simp [readLine, htok, processLine, hsol]
    simp [loadLines] at hpre
    simp [loadLines, loadFrom_append, hpre, hbad]
  · intro _
    exact ⟨rfl, alookup_upsert_self _ _ _⟩

/-- C9, witness: the file `a 1` then `a b c` aborts, while nested-then-
scalar succeeds, at concrete inputs. -/
theorem claim_C9_witness :
    loadLines ["a 1\n", "a b c\n"] = none ∧
    (processLine [("a", Value.nested [("x", "y")])] ["a", "z"] =
        some (upsert [("a", Value.nested [("x", "y")])] "a" (Value.scalar "z")) ∧
      alookup (upsert [("a", Value.nested [("x", "y")])] "a" (Value.scalar "z"))
        "a" = some (Value.scalar "z")) :=
  ⟨by
    have h := (claim_C9 [("a", Value.scalar "1")] "a" "1" "b" "c" [] [] "z").2.1
      ["a 1\n"] [] "a b c\n" (by decide) (by decide) (by decide)
    exact h,
   (claim_C9 [("a", Value.nested [("x", "y")])] "a" "1" "b" "c" [] [("x", "y")]
      "z").2.2 (by decide)⟩

/-! ## Claim about the machine constants -/

/-- C8: the derived constants satisfy the configured formulas exactly:
irms = 10*100*0.5/29 = 500/29 (≈ 17.241), imax = irms*sqrt(2) (≈ 24.38),
freq = (pole/2)*speed/60 = 2000 exactly. -/
theorem claim_C8 :
    irms = current_density * slot_size * fill_factor / turns ∧
    irms = 500 / 29 ∧
    imax = (irms : ℝ) * Real.sqrt 2 ∧
    freq = pole / 2 * speed / 60 ∧
    freq = 2000 ∧
    (17.241 < irms ∧ irms < 17.242) ∧
    (24.37 < imax ∧ imax < 24.39) := by
  have hirms : irms = 500 / 29 := by
    norm_num [irms, current_density, slot_size, fill_factor, turns]
  have hsq : Real.sqrt 2 ^ 2 = 2 := Real.sq_sqrt (by norm_num)
  have hnn : (0 : ℝ) ≤ Real.sqrt 2 := Real.sqrt_nonneg 2
  have h1 : (1.41421 : ℝ) < Real.sqrt 2 := by nlinarith [hsq, hnn]
  have h2 : Real.sqrt 2 < 1.41422 := by nlinarith [hsq, hnn]
  have himax : imax = (500 / 29 : ℝ) * Real.sqrt 2 := by
    rw [imax, hirms]; norm_num
  refine ⟨rfl, hirms, rfl, rfl, ?_, ⟨?_, ?_⟩, ?_, ?_⟩
  · norm_num [freq, pole, speed]
  · rw [hirms]; norm_num
  · rw [hirms]; norm_num
  · rw [himax]; nlinarith [h1]
  · rw [himax]; nlinarith [h2]

/-! ## Claims about the writer -/

/-- The writer aborts with an exception exactly when `time` is missing,
its value does not convert to a number, or the converted time differs
from -1 and `windingEmf` is missing or not a nested mapping. -/
theorem write_output_none_iff (render : ℝ → String) (sol : Record) :
    write_output render sol = none ↔
      (alookup sol "time" = none ∨
       (∃ tv, alookup sol "time" = some tv ∧ toNum tv = none) ∨
       (∃ tv t, alookup sol "time" = some tv ∧ toNum tv = some t ∧ t ≠ -1 ∧
         ∀ m, alookup sol "windingEmf" ≠ some (Value.nested m))) := by
  constructor
  · intro hw
    obtain h1 | ⟨tv, h1⟩ := Option.eq_none_or_eq_some (alookup sol "time")
    · exact Or.inl h1
    obtain h2 | ⟨t, h2⟩ := Option.eq_none_or_eq_some (toNum tv)
    · exact Or.inr (Or.inl ⟨tv, h1, h2⟩)
    by_cases h3 : t = -1
    · subst h3
      exfalso
      simp [write_output, h1, h2] at hw
    obtain h4 | ⟨wv, h4⟩ := Option.eq_none_or_eq_some (alookup sol "windingEmf")
    · exact Or.inr (Or.inr ⟨tv, t, h1, h2, h3, fun m => by simp [h4]⟩)
    cases wv with
    | nested m =>
      exfalso
      simp [write_output, h1, h2, h3, h4] at hw
    | scalar s =>
      exact Or.inr (Or.inr ⟨tv, t, h1, h2, h3, fun m => by simp [h4]⟩)
    | intVal n =>
      exact Or.inr (Or.inr ⟨tv, t, h1, h2, h3, fun m => by simp [h4]⟩)
  · rintro (h1 | ⟨tv, h1, h2⟩ | ⟨tv, t, h1, h2, h3, h4⟩)
    · simp [write_output, h1]
    · simp [write_output, h1, h2]
    · obtain hw | ⟨wv, hw⟩ := Option.eq_none_or_eq_some (alookup sol "windingEmf")
      · simp [write_output, h1, h2, h3, hw]
      cases wv with
      | nested m => exact absurd hw (h4 m)
      | scalar s => simp [write_output, h1, h2, h3, hw]
      | intVal n => simp [write_output, h1, h2, h3, hw]

/-- C3, counterexample: a record whose `time` is the parseable string "1"
and whose `windingEmf` is present but bound to a SCALAR makes the writer
fail (`sol['windingEmf'].keys()` raises AttributeError), although none of
the claim's three failure conditions holds, so the claimed "if and only
if" is false. -/
theorem claim_C3_cex :
    write_output (fun _ => "")
        [("time", Value.scalar "1"), ("windingEmf", Value.scalar "5")] = none ∧
    alookup [("time", Value.scalar "1"), ("windingEmf", Value.scalar "5")]
        "time" = some (Value.scalar "1") ∧
    toNum (Value.scalar "1") = some 1 ∧
    (1 : ℚ) ≠ -1 ∧
    alookup [("time", Value.scalar "1"), ("windingEmf", Value.scalar "5")]
        "windingEmf" = some (Value.scalar "5") := by
  refine ⟨?_, by decide, by decide, by decide, by decide⟩
  refine (write_output_none_iff _ _).mpr
    (Or.inr (Or.inr ⟨Value.scalar "1", 1, by decide, by decide, by decide,
      fun m hm => ?_⟩))
  have ha : alookup [("time", Value.scalar "1"), ("windingEmf", Value.scalar "5")]
      "windingEmf" = some (Value.scalar "5") := by decide
  rw [ha] at hm
  simp at hm

/-- C3, amended: setting I/O errors aside, the writer fails if and only if
the record is missing `time`, the `time` value is not parseable as a
number, or the converted time differs from -1 and `windingEmf` is absent
OR not a nested mapping; moreover an existing empty solution file yields
the empty record, on which the writer is a fatal error (missing `time`). -/
theorem claim_C3 (render : ℝ → String) (sol : Record) :
    (write_output render sol = none ↔
      (alookup sol "time" = none ∨
       (∃ tv, alookup sol "time" = some tv ∧ toNum tv = none) ∨
       (∃ tv t, alookup sol "time" = some tv ∧ toNum tv = some t ∧ t ≠ -1 ∧
         ∀ m, alookup sol "windingEmf" ≠ some (Value.nested m)))) ∧
    load_solution_file true "" = some [] ∧
    write_output render ([] : Record) = none ∧
    alookup ([] : Record) "time" = none :=
  ⟨write_output_none_iff render sol, by decide,
   (write_output_none_iff render []).mpr (Or.inl rfl), rfl⟩

/-- C3, witness: a record without `time` makes the writer fail. -/
theorem claim_C3_witness :
    write_output (fun _ => "x") [("a", Value.scalar "b")] = none :=
  (claim_C3 (fun _ => "x") [("a", Value.scalar "b")]).1.mpr (Or.inl (by decide))

/-- C10: when the writer's precondition fails (missing `time`, unparseable
`time`, or `windingEmf` absent/non-mapping with t different from -1), the
exception is raised during assembly of the output list, before the output
file is opened, so the control file keeps its previous content; the file
is replaced only by a run that reaches the final single write with the
fully assembled text. -/
theorem claim_C10 (render : ℝ → String) (sol : Record) (oldContent : String) :
    ((alookup sol "time" = none ∨
      (∃ tv, alookup sol "time" = some tv ∧ toNum tv = none) ∨
      (∃ tv t, alookup sol "time" = some tv ∧ toNum tv = some t ∧ t ≠ -1 ∧
        ∀ m, alookup sol "windingEmf" ≠ some (Value.nested m))) →
      run_write render sol oldContent = oldContent) ∧
    (∀ out, write_output render sol = some out →
      run_write render sol oldContent = sjoin out) := by
  constructor
  · intro h
    have hn := (write_output_none_iff render sol).mpr h
    simp [run_write, hn]
  · intro out hout
    simp [run_write, hout]

/-- C10, witness: a record with an unparseable `time` leaves the old file
content in place. -/
theorem claim_C10_witness :
    run_write (fun _ => "x") [("time", Value.scalar "abc")] "previous"
      = "previous" :=
  (claim_C10 (fun _ => "x") [("time", Value.scalar "abc")] "previous").1
    (Or.inr (Or.inl ⟨Value.scalar "abc", by decide, by decide⟩))

/-- C2: when the record's `time` converts to -1 the writer emits exactly
`begin_data\ntime -1.0\nend_data\n` and no winding lines, whatever else
the record contains; the hypothesis on `render` is the fact that Python
prints the float -1.0 as "-1.0". -/
theorem claim_C2 (render : ℝ → String) (sol : Record) (tv : Value)
    (h1 : alookup sol "time" = some tv) (h2 : toNum tv = some (-1))
    (hr : render (-1 : ℝ) = "-1.0") :
    write_user_file render sol = some "begin_data\ntime -1.0\nend_data\n" := by
  have hout : write_output render sol =
      some ["begin_data\n", "time " ++ render (((-1 : ℚ) : ℝ)) ++ "\n",
        "end_data\n"] := by
    simp [write_output, h1, h2]
  have hc : ((-1 : ℚ) : ℝ) = (-1 : ℝ) := by push_cast; ring
  rw [write_user_file, hout, Option.map_some', sjoin, hc, hr]
  rfl

/-- C2, witness: the bootstrap record written with the Python rendering of
-1.0 produces exactly the three-line block. -/
theorem claim_C2_witness :
    alookup [("time", Value.intVal (-1)), ("windingEmf", Value.nested [("A", "1")])]
        "time" = some (Value.intVal (-1)) ∧
    toNum (Value.intVal (-1)) = some (-1) ∧
    write_user_file (fun _ => "-1.0")
        [("time", Value.intVal (-1)), ("windingEmf", Value.nested [("A", "1")])]
      = some "begin_data\ntime -1.0\nend_data\n" :=
  ⟨by decide, by decide,
   claim_C2 (fun _ => "-1.0")
     [("time", Value.intVal (-1)), ("windingEmf", Value.nested [("A", "1")])]
     (Value.intVal (-1)) (by decide) (by decide) rfl⟩

/-- C1: for a record whose time converts to t different from -1 and whose
`windingEmf` is a non-empty nested mapping with N names, the writer emits
one three-line winding block per name, in the mapping's insertion order,
and the block at 0-indexed position i carries the source value
imax * sin(2*pi*freq*t - (2*pi/N)*i) for the i-th winding name. -/
theorem claim_C1 (render : ℝ → String) (sol : Record) (tv : Value) (t : ℚ)
    (m : List (String × String))
    (h1 : alookup sol "time" = some tv) (h2 : toNum tv = some t)
    (h3 : t ≠ -1) (h4 : alookup sol "windingEmf" = some (Value.nested m))
    (_h5 : m ≠ []) :
    ∃ chunks : List String,
      write_output render sol =
        some (["begin_data\n", "time " ++ render (t : ℝ) ++ "\n"]
          ++ chunks ++ ["end_data\n"]) ∧
      chunks.length = m.length ∧
      ∀ i, ∀ hi : i < m.length, ∀ hc : i < chunks.length,
        chunks[i] =
          Winding.str render
            (Winding.mk
              (imax * Real.sin (2 * Real.pi * (freq : ℝ) * (t : ℝ)
                 - 2 * Real.pi / (m.length : ℝ) * (i : ℝ)))
              0.1 0 (m[i].1)) := by
  refine ⟨(m.map Prod.fst).enum.map (fun p =>
    Winding.str render
      (Winding.mk
        (imax * Real.sin (2 * Real.pi * (freq : ℝ) * (t : ℝ)
           - 2 * Real.pi / ((m.map Prod.fst).length : ℝ) * (p.1 : ℝ)))
        0.1 0 p.2)), ?_, ?_, ?_⟩
  · simp [write_output, h1, h2, h3, h4]
  · simp
  · intro i hi hc
    have hi' : i < (m.map Prod.fst).enum.length := by
      simpa using hi
    rw [List.getElem_map, List.getElem_enum]
    simp

/-- C1, witness: a two-winding record at time 1, with a constant renderer. -/
theorem claim_C1_witness :
    alookup [("time", Value.scalar "1"),
        ("windingEmf", Value.nested [("A", "0"), ("B", "0")])] "time"
      = some (Value.scalar "1") ∧
    toNum (Value.scalar "1") = some 1 ∧
    (1 : ℚ) ≠ -1 ∧
    alookup [("time", Value.scalar "1"),
        ("windingEmf", Value.nested [("A", "0"), ("B", "0")])] "windingEmf"
      = some (Value.nested [("A", "0"), ("B", "0")]) ∧
    ([("A", "0"), ("B", "0")] : List (String × String)) ≠ [] ∧
    ∃ chunks : List String,
      write_output (fun _ => "v")
          [("time", Value.scalar "1"),
           ("windingEmf", Value.nested [("A", "0"), ("B", "0")])] =
        some (["begin_data\n", "time " ++ "v" ++ "\n"]
          ++ chunks ++ ["end_data\n"]) ∧
      chunks.length = 2 ∧
      ∀ i, ∀ hi : i < 2, ∀ hc : i < chunks.length,
        chunks[i] =
          Winding.str (fun _ => "v")
            (Winding.mk
              (imax * Real.sin (2 * Real.pi * (freq : ℝ) * ((1 : ℚ) : ℝ)
                 - 2 * Real.pi / ((2 : ℕ) : ℝ) * (i : ℝ)))
              0.1 0
              (([("A", "0"), ("B", "0")] : List (String × String))[i].1)) :=
  ⟨by decide, by decide, by decide, by decide, by decide,
   claim_C1 (fun _ => "v")
     [("time", Value.scalar "1"),
      ("windingEmf", Value.nested [("A", "0"), ("B", "0")])]
     (Value.scalar "1") 1 [("A", "0"), ("B", "0")]
     (by decide) (by decide) (by decide) (by decide) (by decide)⟩

/-! ## Tokenizer lemmas for the round trip -/

theorem isEmpty_false_of_ne {l : List Char} (h : l ≠ []) : l.isEmpty = false := by
  cases l with
  | nil => exact absurd rfl h
  | cons c cs => rfl

theorem wordsAux_absorb (t : List Char) : ∀ (rest cur : List Char),
    (∀ c ∈ t, isWs c = false) →
    wordsAux (t ++ rest) cur = wordsAux rest (cur ++ t) := by
  induction t with
  | nil => intro rest cur _; simp
  | cons c t ih =>
    intro rest cur h
    have hc : isWs c = false := h c (List.mem_cons_self c t)
    have ih' := ih rest (cur ++ [c]) (fun x hx => h x (List.mem_cons_of_mem _ hx))
    simp [wordsAux, hc, ih', List.append_assoc]

theorem wordsAux_ws_cons (c : Char) (rest cur : List Char) (hc : isWs c = true)
    (hcur : cur ≠ []) :
    wordsAux (c :: rest) cur = String.mk cur :: wordsAux rest [] := by
  simp [wordsAux, hc, isEmpty_false_of_ne hcur]

theorem wordsAux_allWs (w : List Char) : ∀ cur : List Char,
    (∀ c ∈ w, isWs c = true) →
    wordsAux w cur = if cur.isEmpty then [] else [String.mk cur] := by
  induction w with
  | nil => intro cur _; rfl
  | cons c w ih =>
    intro cur h
    have hc : isWs c = true := h c (List.mem_cons_self c w)
    have hw : ∀ x ∈ w, isWs x = true := fun x hx => h x (List.mem_cons_of_mem _ hx)
    have hnil : wordsAux w [] = [] := by
      rw [ih [] hw]; rfl
    by_cases hcur : cur.isEmpty
    · simp [wordsAux, hc, hcur, hnil]
    · simp [wordsAux, hc, hcur, hnil]

theorem wordsAux_append_allWs (cs : List Char) : ∀ (w cur : List Char),
    (∀ c ∈ w, isWs c = true) →
    wordsAux (cs ++ w) cur = wordsAux cs cur := by
  induction cs with
  | nil =>
    intro w cur h
    rw [List.nil_append, wordsAux_allWs w cur h]
    rfl
  | cons c cs ih =>
    intro w cur h
    by_cases hc : isWs c = true
    · have ih0 := ih w [] h
      simp [wordsAux, hc, ih0]
    · have hc' : isWs c = false := by
        cases hb : isWs c with
        | true => exact absurd hb hc
        | false => rfl
      have ih' := ih w (cur ++ [c]) h
      simp [wordsAux, hc', ih']

theorem words_dropWhile (cs : List Char) :
    words (cs.dropWhile isWs) = words cs := by
  induction cs with
  | nil => rfl
  | cons c cs ih =>
    by_cases hc : isWs c = true
    · have hr : words (c :: cs) = words cs := by
        simp [words, wordsAux, hc]
      rw [List.dropWhile_cons, if_pos hc, ih, hr]
    · rw [List.dropWhile_cons, if_neg hc]

theorem words_pyStrip (cs : List Char) : words (pyStrip cs) = words cs := by
  have hsplit : List.takeWhile isWs ((cs.dropWhile isWs).reverse)
      ++ List.dropWhile isWs ((cs.dropWhile isWs).reverse)
      = (cs.dropWhile isWs).reverse :=
    List.takeWhile_append_dropWhile _ _
  have hdecomp : cs.dropWhile isWs =
      ((cs.dropWhile isWs).reverse.dropWhile isWs).reverse
        ++ ((cs.dropWhile isWs).reverse.takeWhile isWs).reverse := by
    have h2 := congrArg List.reverse hsplit
    rw [List.reverse_append, List.reverse_reverse] at h2
    exact h2.symm
  have hws : ∀ c ∈ ((cs.dropWhile isWs).reverse.takeWhile isWs).reverse,
      isWs c = true := by
    intro c hcmem
    exact List.mem_takeWhile_imp (List.mem_reverse.mp hcmem)
  have h1 : words (cs.dropWhile isWs)
      = words ((cs.dropWhile isWs).reverse.dropWhile isWs).reverse := by
    conv_lhs => rw [hdecomp]
    exact wordsAux_append_allWs _ _ [] hws
  rw [pyStrip, ← h1, words_dropWhile]

theorem tokenize_eq_words (s : String) : tokenize s = words s.data := by
  rw [tokenize, words_pyStrip]

theorem tokenize_two (a b : String) (ha : tokOk a) (hb : tokOk b) :
    tokenize (a ++ " " ++ b ++ "\n") = [a, b] := by
  rw [tokenize_eq_words]
  have hd : (a ++ " " ++ b ++ "\n").data
      = a.data ++ (' ' :: (b.data ++ ['\n'])) := by
    simp [String.data_append]
  rw [hd, words, wordsAux_absorb a.data _ [] ha.2, List.nil_append,
    wordsAux_ws_cons _ _ _ (by decide) ha.1,
    wordsAux_absorb b.data _ [] hb.2, List.nil_append,
    wordsAux_ws_cons _ _ _ (by decide) hb.1]
  rfl

theorem tokenize_three (a b c : String) (ha : tokOk a) (hb : tokOk b)
    (hc : tokOk c) :
    tokenize (a ++ " " ++ b ++ " " ++ c ++ "\n") = [a, b, c] := by
  rw [tokenize_eq_words]
  have hd : (a ++ " " ++ b ++ " " ++ c ++ "\n").data
      = a.data ++ (' ' :: (b.data ++ (' ' :: (c.data ++ ['\n'])))) := by
    simp [String.data_append]
  rw [hd, words, wordsAux_absorb a.data _ [] ha.2, List.nil_append,
    wordsAux_ws_cons _ _ _ (by decide) ha.1,
    wordsAux_absorb b.data _ [] hb.2, List.nil_append,
    wordsAux_ws_cons _ _ _ (by decide) hb.1,
    wordsAux_absorb c.data _ [] hc.2, List.nil_append,
    wordsAux_ws_cons _ _ _ (by decide) hc.1]
  rfl

/-! ## Line-splitting and join lemmas -/

theorem linesAux_line (body : List Char) : ∀ (rest cur : List Char),
    '\n' ∉ body →
    linesAux (body ++ '\n' :: rest) cur
      = String.mk (cur ++ body ++ ['\n']) :: linesAux rest [] := by
  induction body with
  | nil =>
    intro rest cur _
    simp [linesAux]
  | cons c body ih =>
    intro rest cur h
    simp only [List.mem_cons, not_or] at h
    have hc : ¬(c = '\n') := fun e => h.1 e.symm
    have ih' := ih rest (cur ++ [c]) h.2
    simp [linesAux, hc, ih', List.append_assoc]

theorem pyReadlines_sjoin (ls : List String) (h : ∀ s ∈ ls, nlLine s) :
    pyReadlines (sjoin ls) = ls := by
  induction ls with
  | nil => rfl
  | cons s ls ih =>
    obtain ⟨body, hb, hnb⟩ := h s (List.mem_cons_self s ls)
    have hrest : ∀ x ∈ ls, nlLine x := fun x hx => h x (List.mem_cons_of_mem _ hx)
    have hj : sjoin (s :: ls) = s ++ sjoin ls := rfl
    rw [pyReadlines, hj, String.data_append, hb, List.append_assoc,
      List.singleton_append, linesAux_line body _ [] hnb]
    have hmk : String.mk ([] ++ body ++ ['\n']) = s := by
      rw [List.nil_append, ← hb]
    rw [hmk]
    have htail : linesAux (sjoin ls).data [] = ls := ih hrest
    rw [htail]

theorem sjoin_append (xs ys : List String) :
    sjoin (xs ++ ys) = sjoin xs ++ sjoin ys := by
  induction xs with
  | nil =>
    apply String.ext
    simp [sjoin, String.data_append]
  | cons x xs ih =>
    have h1 : sjoin ((x :: xs) ++ ys) = x ++ sjoin (xs ++ ys) := rfl
    have h2 : sjoin (x :: xs) = x ++ sjoin xs := rfl
    rw [h1, h2, ih, String.append_assoc]

theorem sjoin_flatten (l : List (List String)) :
    sjoin l.flatten = sjoin (l.map sjoin) := by
  induction l with
  | nil => rfl
  | cons x l ih =>
    rw [List.flatten_cons, sjoin_append, List.map_cons, ih]
    rfl

theorem winding_str_eq (render : ℝ → String) (n : String) (v : ℝ) :
    Winding.str render (Winding.mk v 0.1 0 n) = sjoin (chunkLines render (n, v)) := by
  apply String.ext
  simp [Winding.str, chunkLines, sjoin, String.data_append]

theorem tokOk_no_nl {s : String} (h : tokOk s) : '\n' ∉ s.data := by
  intro hm
  have := h.2 '\n' hm
  simp [isWs] at this

theorem no_nl_append {a b : String} (ha : '\n' ∉ a.data) (hb : '\n' ∉ b.data) :
    '\n' ∉ (a ++ b).data := by
  rw [String.data_append]
  simp only [List.mem_append, not_or]
  exact ⟨ha, hb⟩

theorem nlLine_of_no_nl (s : String) (h : '\n' ∉ s.data) : nlLine (s ++ "\n") :=
  ⟨s.data, by simp [String.data_append], h⟩

theorem alookup_eq_none_of_not_mem {β : Type} (l : List (String × β))
    (k : String) (h : k ∉ l.map Prod.fst) : alookup l k = none := by
  induction l with
  | nil => rfl
  | cons p rest ih =>
    simp only [List.map_cons, List.mem_cons, not_or] at h
    have hp : ¬(p.1 = k) := fun e => h.1 e.symm
    simp [alookup, hp, ih h.2]

/-! ## Evaluating the reader on writer-produced winding blocks -/

theorem load_chunk_first (render : ℝ → String) (rt n : String) (v : ℝ)
    (hn : tokOk n) (hrv : tokOk (render v)) (hr1 : tokOk (render (0.1 : ℝ)))
    (hr0 : tokOk (render (0 : ℝ))) :
    loadFrom [("time", Value.scalar rt)] (chunkLines render (n, v)) =
    some [("time", Value.scalar rt),
      ("windingSrc", Value.nested [(n, render v)]),
      ("windingR", Value.nested [(n, render (0.1 : ℝ))]),
      ("windingL", Value.nested [(n, render (0 : ℝ))])] := by
  have t1 := tokenize_three "windingSrc" n (render v) (by decide) hn hrv
  have t2 := tokenize_three "windingR" n (render (0.1 : ℝ)) (by decide) hn hr1
  have t3 := tokenize_three "windingL" n (render (0 : ℝ)) (by decide) hn hr0
  simp only [chunkLines, loadFrom_cons, loadFrom_nil, readLine, t1, t2, t3]
  simp +decide [processLine, alookup, upsert]

theorem load_chunk_step (render : ℝ → String) (rt n : String) (v : ℝ)
    (ms mr ml : List (String × String))
    (hn : tokOk n) (hrv : tokOk (render v)) (hr1 : tokOk (render (0.1 : ℝ)))
    (hr0 : tokOk (render (0 : ℝ)))
    (hms : n ∉ ms.map Prod.fst) (hmr : n ∉ mr.map Prod.fst)
    (hml : n ∉ ml.map Prod.fst) :
    loadFrom [("time", Value.scalar rt), ("windingSrc", Value.nested ms),
        ("windingR", Value.nested mr), ("windingL", Value.nested ml)]
      (chunkLines render (n, v)) =
    some [("time", Value.scalar rt),
      ("windingSrc", Value.nested (ms ++ [(n, render v)])),
      ("windingR", Value.nested (mr ++ [(n, render (0.1 : ℝ))])),
      ("windingL", Value.nested (ml ++ [(n, render (0 : ℝ))]))] := by
  have t1 := tokenize_three "windingSrc" n (render v) (by decide) hn hrv
  have t2 := tokenize_three "windingR" n (render (0.1 : ℝ)) (by decide) hn hr1
  have t3 := tokenize_three "windingL" n (render (0 : ℝ)) (by decide) hn hr0
  have e1 : upsert ms n (render v) = ms ++ [(n, render v)] :=
    upsert_of_alookup_none ms n _ (alookup_eq_none_of_not_mem ms n hms)
  have e2 : upsert mr n (render (0.1 : ℝ)) = mr ++ [(n, render (0.1 : ℝ))] :=
    upsert_of_alookup_none mr n _ (alookup_eq_none_of_not_mem mr n hmr)
  have e3 : upsert ml n (render (0 : ℝ)) = ml ++ [(n, render (0 : ℝ))] :=
    upsert_of_alookup_none ml n _ (alookup_eq_none_of_not_mem ml n hml)
  simp only [chunkLines, loadFrom_cons, loadFrom_nil, readLine, t1, t2, t3]
  simp +decide [processLine, alookup, upsert, e1, e2, e3]

theorem load_chunks (render : ℝ → String) (ws : List (String × ℝ))
    (hrender : ∀ x : ℝ, tokOk (render x)) :
    ∀ (rt : String) (ms mr ml : List (String × String)),
    (∀ p ∈ ws, tokOk p.1) →
    (∀ p ∈ ws, p.1 ∉ ms.map Prod.fst) →
    (∀ p ∈ ws, p.1 ∉ mr.map Prod.fst) →
    (∀ p ∈ ws, p.1 ∉ ml.map Prod.fst) →
    (ws.map Prod.fst).Nodup →
    loadFrom [("time", Value.scalar rt), ("windingSrc", Value.nested ms),
        ("windingR", Value.nested mr), ("windingL", Value.nested ml)]
      ((ws.map (chunkLines render)).flatten) =
    some [("time", Value.scalar rt),
      ("windingSrc", Value.nested (ms ++ ws.map (fun p => (p.1, render p.2)))),
      ("windingR", Value.nested (mr ++ ws.map (fun p => (p.1, render (0.1 : ℝ))))),
      ("windingL", Value.nested (ml ++ ws.map (fun p => (p.1, render (0 : ℝ)))))] := by
  induction ws with
  | nil => intro rt ms mr ml _ _ _ _ _; simp
  | cons p ws ih =>
    intro rt ms mr ml htok hms hmr hml hnd
    rw [List.map_cons] at hnd
    obtain ⟨hpn, hnd'⟩ := List.nodup_cons.mp hnd
    have hqp : ∀ q ∈ ws, q.1 ≠ p.1 := by
      intro q hq he
      exact hpn (he ▸ List.mem_map_of_mem Prod.fst hq)
    have hms' : ∀ q ∈ ws, q.1 ∉ (ms ++ [(p.1, render p.2)]).map Prod.fst := by
      intro q hq
      rw [List.map_append]
      simp only [List.mem_append, not_or]
      exact ⟨hms q (List.mem_cons_of_mem _ hq), by simp [hqp q hq]⟩
    have hmr' : ∀ q ∈ ws, q.1 ∉ (mr ++ [(p.1, render (0.1 : ℝ))]).map Prod.fst := by
      intro q hq
      rw [List.map_append]
      simp only [List.mem_append, not_or]
      exact ⟨hmr q (List.mem_cons_of_mem _ hq), by simp [hqp q hq]⟩
    have hml' : ∀ q ∈ ws, q.1 ∉ (ml ++ [(p.1, render (0 : ℝ))]).map Prod.fst := by
      intro q hq
      rw [List.map_append]
      simp only [List.mem_append, not_or]
      exact ⟨hml q (List.mem_cons_of_mem _ hq), by simp [hqp q hq]⟩
    have htok' : ∀ q ∈ ws, tokOk q.1 := fun q hq => htok q (List.mem_cons_of_mem _ hq)
    rw [List.map_cons, List.flatten_cons, loadFrom_append,
      load_chunk_step render rt p.1 p.2 ms mr ml
        (htok p (List.mem_cons_self p ws)) (hrender p.2) (hrender _) (hrender _)
        (hms p (List.mem_cons_self p ws)) (hmr p (List.mem_cons_self p ws))
        (hml p (List.mem_cons_self p ws)),
      Option.some_bind,
      ih rt (ms ++ [(p.1, render p.2)]) (mr ++ [(p.1, render (0.1 : ℝ))])
        (ml ++ [(p.1, render (0 : ℝ))]) htok' hms' hmr' hml' hnd']
    simp [List.append_assoc]

/-- The text the writer joins equals the join of its line-by-line
decomposition (header lines, three lines per winding block, footer). -/
theorem sjoin_out (render : ℝ → String) (rt : String) (ws : List (String × ℝ))
    (chunkstrs : List String)
    (hcs : chunkstrs = ws.map (fun q => sjoin (chunkLines render q))) :
    sjoin (["begin_data\n", "time " ++ rt ++ "\n"] ++ chunkstrs ++ ["end_data\n"])
      = sjoin (["begin_data\n", "time" ++ " " ++ rt ++ "\n"]
          ++ ((ws.map (chunkLines render)).flatten ++ ["end_data\n"])) := by
  subst hcs
  rw [sjoin_append, sjoin_append, sjoin_append, sjoin_append, sjoin_flatten,
    List.map_map]
  have hpt : ws.map (sjoin ∘ chunkLines render)
      = ws.map (fun q => sjoin (chunkLines render q)) :=
    List.map_congr_left (fun q _ => rfl)
  rw [hpt, String.append_assoc]
  rfl

/-- Every line of the writer's output is newline-terminated with no
interior newline. -/
theorem nl_written (render : ℝ → String) (rt : String) (ws : List (String × ℝ))
    (hrender : ∀ x : ℝ, tokOk (render x)) (hrt : '\n' ∉ rt.data)
    (htok : ∀ q ∈ ws, tokOk q.1) :
    ∀ s ∈ (["begin_data\n", "time" ++ " " ++ rt ++ "\n"]
        ++ ((ws.map (chunkLines render)).flatten ++ ["end_data\n"])), nlLine s := by
  intro s hs
  simp only [List.mem_append, List.mem_cons, List.not_mem_nil, or_false] at hs
  rcases hs with (rfl | rfl) | (hsf | rfl)
  · exact ⟨"begin_data".data, by decide, by decide⟩
  · exact nlLine_of_no_nl _ (no_nl_append (by decide) hrt)
  · obtain ⟨l, hl, hsl⟩ := List.mem_flatten.mp hsf
    obtain ⟨q, hq, rfl⟩ := List.mem_map.mp hl
    have hqn : '\n' ∉ q.1.data := tokOk_no_nl (htok q hq)
    simp only [chunkLines, List.mem_cons, List.not_mem_nil, or_false] at hsl
    rcases hsl with rfl | rfl | rfl
    · exact nlLine_of_no_nl _
        (no_nl_append (no_nl_append (no_nl_append (by decide) hqn) (by decide))
          (tokOk_no_nl (hrender _)))
    · exact nlLine_of_no_nl _
        (no_nl_append (no_nl_append (no_nl_append (by decide) hqn) (by decide))
          (tokOk_no_nl (hrender _)))
    · exact nlLine_of_no_nl _
        (no_nl_append (no_nl_append (no_nl_append (by decide) hqn) (by decide))
          (tokOk_no_nl (hrender _)))
  · exact ⟨"end_data".data, by decide, by decide⟩

/-- Feeding the reader the writer's line sequence reconstructs the time
scalar and one entry per winding in each of the three nested mappings. -/
theorem load_written (render : ℝ → String) (rt : String) (ws : List (String × ℝ))
    (hrender : ∀ x : ℝ, tokOk (render x)) (hrt : tokOk rt)
    (htok : ∀ q ∈ ws, tokOk q.1) (hnd : (ws.map Prod.fst).Nodup)
    (hne : ws ≠ []) :
    loadLines (["begin_data\n", "time" ++ " " ++ rt ++ "\n"]
        ++ ((ws.map (chunkLines render)).flatten ++ ["end_data\n"]))
      = some [("time", Value.scalar rt),
          ("windingSrc", Value.nested (ws.map (fun p => (p.1, render p.2)))),
          ("windingR", Value.nested (ws.map (fun p => (p.1, render (0.1 : ℝ))))),
          ("windingL", Value.nested (ws.map (fun p => (p.1, render (0 : ℝ)))))] := by
  obtain ⟨w, ws', hws⟩ := List.exists_cons_of_ne_nil hne
  subst hws
  rw [List.map_cons] at hnd
  obtain ⟨hwn, hnd'⟩ := List.nodup_cons.mp hnd
  have hqp : ∀ q ∈ ws', q.1 ≠ w.1 := by
    intro q hq he
    exact hwn (he ▸ List.mem_map_of_mem Prod.fst hq)
  have htok' : ∀ q ∈ ws', tokOk q.1 :=
    fun q hq => htok q (List.mem_cons_of_mem _ hq)
  have hb : readLine ([] : Record) "begin_data\n" = some [] := by decide
  have ht2 := tokenize_two "time" rt (by decide) hrt
  have htline : readLine ([] : Record) ("time" ++ " " ++ rt ++ "\n")
      = some [("time", Value.scalar rt)] := by
    simp only [readLine, ht2]
    rfl
  have hend : ∀ s : Record, readLine s "end_data\n" = some s := by
    intro s
    simp only [readLine, show tokenize "end_data\n" = ["end_data"] from by decide]
    rfl
  have hfresh : ∀ (x : ℝ) (q : String × ℝ), q ∈ ws' →
      q.1 ∉ ([(w.1, render x)] : List (String × String)).map Prod.fst := by
    intro x q hq
    simp [hqp q hq]
  rw [loadLines, loadFrom_append, loadFrom_cons, hb, Option.some_bind,
    loadFrom_cons, htline, Option.some_bind, loadFrom_nil, Option.some_bind,
    loadFrom_append, List.map_cons, List.flatten_cons, loadFrom_append,
    load_chunk_first render rt w.1 w.2 (htok w (List.mem_cons_self w ws'))
      (hrender _) (hrender _) (hrender _), Option.some_bind,
    load_chunks render ws' hrender rt [(w.1, render w.2)]
      [(w.1, render (0.1 : ℝ))] [(w.1, render (0 : ℝ))] htok'
      (fun q hq => hfresh w.2 q hq) (fun q hq => hfresh (0.1 : ℝ) q hq)
      (fun q hq => hfresh (0 : ℝ) q hq) hnd', Option.some_bind,
    loadFrom_cons, hend, Option.some_bind, loadFrom_nil]
  simp

/-- C7: a control file produced by the writer, fed back through the
reader, parses to a record whose scalar `time` entry is exactly the text
the writer wrote for t, and whose nested mappings windingSrc / windingR /
windingL have exactly the original winding names as sub-keys, in order.
The renderer and the winding names are assumed to produce single
whitespace-free tokens, as Python's str() on finite floats and names read
from a tokenized solution file do. -/
theorem claim_C7 (render : ℝ → String) (sol : Record) (tv : Value) (t : ℚ)
    (hrender : ∀ x : ℝ, tokOk (render x))
    (h1 : alookup sol "time" = some tv) (h2 : toNum tv = some t) :
    (t = -1 → ∀ out, write_user_file render sol = some out →
      load_solution_file true out
        = some [("time", Value.scalar (render ((t : ℝ))))]) ∧
    (∀ m : List (String × String), t ≠ -1 →
      alookup sol "windingEmf" = some (Value.nested m) → m ≠ [] →
      (∀ p ∈ m, tokOk p.1) → (m.map Prod.fst).Nodup →
      ∀ out, write_user_file render sol = some out →
      ∃ ps pr pl : List (String × String),
        load_solution_file true out =
          some [("time", Value.scalar (render ((t : ℝ)))),
            ("windingSrc", Value.nested ps),
            ("windingR", Value.nested pr),
            ("windingL", Value.nested pl)] ∧
        ps.map Prod.fst = m.map Prod.fst ∧
        pr.map Prod.fst = m.map Prod.fst ∧
        pl.map Prod.fst = m.map Prod.fst) := by
  constructor
  · intro ht out hout
    subst ht
    have hwo : write_output render sol =
        some ["begin_data\n", "time " ++ render (((-1 : ℚ) : ℝ)) ++ "\n",
          "end_data\n"] := by
      simp [write_output, h1, h2]
    rw [write_user_file, hwo, Option.map_some'] at hout
    injection hout with he
    have htl : ("time " ++ render (((-1 : ℚ) : ℝ)) ++ "\n")
        = ("time" ++ " " ++ render (((-1 : ℚ) : ℝ)) ++ "\n") := rfl
    rw [htl] at he
    have hofl : out = sjoin ["begin_data\n",
        "time" ++ " " ++ render (((-1 : ℚ) : ℝ)) ++ "\n", "end_data\n"] := he.symm
    have hnl : ∀ s ∈ (["begin_data\n",
        "time" ++ " " ++ render (((-1 : ℚ) : ℝ)) ++ "\n", "end_data\n"] :
          List String), nlLine s := by
      intro s hs
      simp only [List.mem_cons, List.not_mem_nil, or_false] at hs
      rcases hs with rfl | rfl | rfl
      · exact ⟨"begin_data".data, by decide, by decide⟩
      · exact nlLine_of_no_nl _ (no_nl_append (by decide) (tokOk_no_nl (hrender _)))
      · exact ⟨"end_data".data, by decide, by decide⟩
    have hload : load_solution_file true out
        = loadLines (pyReadlines out) := rfl
    rw [hload, hofl, pyReadlines_sjoin _ hnl]
    have hb : readLine ([] : Record) "begin_data\n" = some [] := by decide
    have ht2 := tokenize_two "time" (render (((-1 : ℚ) : ℝ))) (by decide) (hrender _)
    have htline : readLine ([] : Record)
        ("time" ++ " " ++ render (((-1 : ℚ) : ℝ)) ++ "\n")
        = some [("time", Value.scalar (render (((-1 : ℚ) : ℝ))))] := by
      simp only [readLine, ht2]
      rfl
    have hend : ∀ s : Record, readLine s "end_data\n" = some s := by
      intro s
      simp only [readLine, show tokenize "end_data\n" = ["end_data"] from by decide]
      rfl
    rw [loadLines, loadFrom_cons, hb, Option.some_bind, loadFrom_cons, htline,
      Option.some_bind, loadFrom_cons, hend, Option.some_bind, loadFrom_nil]
  · intro m h3 h4 hm hnames hnd out hout
    have hwo : write_output render sol =
        some (["begin_data\n", "time " ++ render ((t : ℝ)) ++ "\n"]
          ++ (m.map Prod.fst).enum.map (fun p =>
               Winding.str render
                 (Winding.mk
                   (imax * Real.sin (2 * Real.pi * (freq : ℝ) * (t : ℝ)
                      - 2 * Real.pi / (((m.map Prod.fst).length : ℕ) : ℝ) * (p.1 : ℝ)))
                   0.1 0 p.2))
          ++ ["end_data\n"]) := by
      simp [write_output, h1, h2, h3, h4]
    rw [write_user_file, hwo, Option.map_some'] at hout
    injection hout with he
    have hnamestok : ∀ x ∈ m.map Prod.fst, tokOk x := by
      intro x hx
      obtain ⟨p, hp, rfl⟩ := List.mem_map.mp hx
      exact hnames p hp
    set ws : List (String × ℝ) := (m.map Prod.fst).enum.map (fun p =>
      (p.2, imax * Real.sin (2 * Real.pi * (freq : ℝ) * (t : ℝ)
         - 2 * Real.pi / (((m.map Prod.fst).length : ℕ) : ℝ) * (p.1 : ℝ))))
      with hwsdef
    have hcs : ((m.map Prod.fst).enum.map (fun p =>
          Winding.str render
            (Winding.mk
              (imax * Real.sin (2 * Real.pi * (freq : ℝ) * (t : ℝ)
                 - 2 * Real.pi / (((m.map Prod.fst).length : ℕ) : ℝ) * (p.1 : ℝ)))
              0.1 0 p.2)))
        = ws.map (fun q => sjoin (chunkLines render q)) := by
      rw [hwsdef, List.map_map]
      exact List.map_congr_left (fun p _ => winding_str_eq render p.2 _)
    rw [sjoin_out render (render ((t : ℝ))) ws _ hcs] at he
    have hwsfst : ws.map Prod.fst = m.map Prod.fst := by
      rw [hwsdef, List.map_map]
      have h9 : (m.map Prod.fst).enum.map
            ((Prod.fst : String × ℝ → String) ∘ fun p : ℕ × String =>
              (p.2, imax * Real.sin (2 * Real.pi * (freq : ℝ) * (t : ℝ)
                 - 2 * Real.pi / (((m.map Prod.fst).length : ℕ) : ℝ) * (p.1 : ℝ))))
          = (m.map Prod.fst).enum.map Prod.snd :=
        List.map_congr_left (fun p _ => rfl)
      rw [h9, List.enum_map_snd]
    have hwstok : ∀ q ∈ ws, tokOk q.1 := by
      intro q hq
      apply hnamestok
      rw [← hwsfst]
      exact List.mem_map_of_mem Prod.fst hq
    have hwsnd : (ws.map Prod.fst).Nodup := by
      rw [hwsfst]
      exact hnd
    have hwsne : ws ≠ [] := by
      intro h0
      have h9 : ws.map Prod.fst = [] := by rw [h0]; rfl
      rw [hwsfst] at h9
      exact hm (List.map_eq_nil_iff.mp h9)
    have hofl : out = sjoin (["begin_data\n",
        "time" ++ " " ++ render ((t : ℝ)) ++ "\n"]
        ++ ((ws.map (chunkLines render)).flatten ++ ["end_data\n"])) := he.symm
    refine ⟨ws.map (fun p => (p.1, render p.2)),
      ws.map (fun p => (p.1, render (0.1 : ℝ))),
      ws.map (fun p => (p.1, render (0 : ℝ))), ?_, ?_, ?_, ?_⟩
    · have hload : load_solution_file true out = loadLines (pyReadlines out) := rfl
      rw [hload, hofl,
        pyReadlines_sjoin _ (nl_written render (render ((t : ℝ))) ws hrender
          (tokOk_no_nl (hrender _)) hwstok),
        load_written render (render ((t : ℝ))) ws hrender (hrender _) hwstok
          hwsnd hwsne]
    · rw [List.map_map]
      exact (List.map_congr_left (fun p _ => rfl)).trans hwsfst
    · rw [List.map_map]
      exact (List.map_congr_left (fun p _ => rfl)).trans hwsfst
    · rw [List.map_map]
      exact (List.map_congr_left (fun p _ => rfl)).trans hwsfst

/-- C7, witness: a one-winding record at time 1 with a constant renderer
round-trips through the writer's actual output text. -/
theorem claim_C7_witness :
    write_user_file (fun _ => "1.0")
        [("time", Value.scalar "1"), ("windingEmf", Value.nested [("A", "0")])]
      = some "begin_data\ntime 1.0\nwindingSrc A 1.0\nwindingR A 1.0\nwindingL A 1.0\nend_data\n" ∧
    ∃ ps pr pl : List (String × String),
      load_solution_file true
          "begin_data\ntime 1.0\nwindingSrc A 1.0\nwindingR A 1.0\nwindingL A 1.0\nend_data\n"
        = some [("time", Value.scalar "1.0"),
            ("windingSrc", Value.nested ps), ("windingR", Value.nested pr),
            ("windingL", Value.nested pl)] ∧
      ps.map Prod.fst = ["A"] ∧ pr.map Prod.fst = ["A"] ∧
      pl.map Prod.fst = ["A"] :=
  ⟨rfl,
   (claim_C7 (fun _ => "1.0")
      [("time", Value.scalar "1"), ("windingEmf", Value.nested [("A", "0")])]
      (Value.scalar "1") 1 (fun _ => show tokOk "1.0" by decide)
      (by decide) (by decide)).2
     [("A", "0")] (by decide) (by decide) (by decide) (by decide) (by decide)
     "begin_data\ntime 1.0\nwindingSrc A 1.0\nwindingR A 1.0\nwindingL A 1.0\nend_data\n"
     rfl⟩
